import Mathlib

/-!
Shallow embedding of the `tably` CSV-to-LaTeX converter (`tably.py`).

Strings are modelled as `List Char`; a parsed CSV source is a list of rows,
each row a list of cells.  CSV parsing, command-line parsing and actual file
I/O are external collaborators: the filesystem is a lookup function from file
names to parsed row lists, and the observable behaviour of `Tably.run` is the
list of print/write effects it performs (status and warning diagnostics are
out of scope).  Definitions mirror the functions of `tably.py` and keep their
names.
-/

set_option maxRecDepth 10000

namespace Tably

abbrev Chars := List Char

abbrev Row := List Chars

/-- Opening curly brace character, written by code. -/
def lb : Char := '\x7b'

/-- Closing curly brace character, written by code. -/
def rb : Char := '\x7d'

/-- Wraps a string in curly braces. -/
def braced (s : Chars) : Chars := lb :: (s ++ [rb])

/-- Models Python `sep.join(parts)`. -/
def joinSep (sep : Chars) : List Chars → Chars
  | [] => []
  | [x] => x
  | x :: y :: xs => x ++ sep ++ joinSep sep (y :: xs)

/-- Python truthiness of an optional string: `None` and the empty string are falsy. -/
def strTruthy : Option Chars → Bool
  | none => false
  | some [] => false
  | some (_ :: _) => true

/-- Python truthiness of an optional list of strings: `None` and `[]` are falsy. -/
def listTruthy : Option (List Chars) → Bool
  | none => false
  | some [] => false
  | some (_ :: _) => true

/-- Models Python `list.insert(n, x)`: the index is clamped to the list length. -/
def pyInsert (n : Nat) (x : α) : List α → List α
  | [] => [x]
  | h :: t =>
    match n with
    | 0 => x :: h :: t
    | m + 1 => h :: pyInsert m x t

/-- Models Python string repetition `n * s`. -/
def pyRepeat (n : Nat) (s : Chars) : Chars :=
  match n with
  | 0 => []
  | m + 1 => s ++ pyRepeat m s

/-- The three valid alignment characters, Python literal `'lcr'`. -/
def lcr : Chars := ['l', 'c', 'r']

/-- Embeds `format_alignment` of tably.py.  The final branch models the Python
format spec `'\x7b:c<\x7bl\x7d.\x7bl\x7d\x7d'`: truncate to `len` characters,
then pad on the right with `c` up to width `len`. -/
def format_alignment (align : Chars) (len : Nat) : Chars :=
  let a := if align.any (fun ch => !(decide (ch ∈ lcr))) then ['c'] else align
  if a.length = 1 then pyRepeat len a
  else if a.length = len then a
  else a.take len ++ List.replicate (len - (a.take len).length) 'c'

/-- Decides whether the first list is a leading segment of the second
(Python `str.startswith`). -/
def listPref : Chars → Chars → Bool
  | [], _ => true
  | _ :: _, [] => false
  | a :: as, b :: bs => if a = b then listPref as bs else false

/-- Decides Python substring containment `nd in hay`; the empty string is
contained in everything. -/
def subStr (nd : Chars) : Chars → Bool
  | [] => listPref nd []
  | h :: t => listPref nd (h :: t) || subStr nd t

/-- The seven reserved LaTeX characters of tably.py, in source order `'#$%&_\x7d\x7b'`. -/
def specials : Chars := ['#', '$', '%', '&', '_', rb, lb]

/-- Models Python `column.replace(c, '\\' + c)` for a single-character pattern. -/
def replChar (c : Char) : Chars → Chars
  | [] => []
  | x :: xs => if x = c then '\\' :: c :: replChar c xs else x :: replChar c xs

/-- Embeds `escape` of tably.py: one replacement pass per special character,
in the fixed source order, over the current state of every cell. -/
def escape (line : List Chars) : List Chars :=
  specials.foldl (fun l ch => l.map (replChar ch)) line

/-- Specification-side single-pass escaping: every character belonging to `cs`
is emitted with a backslash prefixed, every other character is left alone. -/
def escAll (cs : Chars) : Chars → Chars
  | [] => []
  | x :: xs => (if x ∈ cs then ['\\', x] else [x]) ++ escAll cs xs

/-- Configuration of one invocation, mirroring the attributes of the `Tably`
class (the column separator is consumed by the external CSV reader and is
therefore not part of the model; `tex_str` is represented by the `no_escape`
flag). -/
structure Config where
  files : List Chars
  no_header : Bool
  caption : Option Chars
  label : Option Chars
  align : Chars
  no_indent : Bool
  outfile : Option Chars
  separate_outfiles : Option (List Chars)
  skip : Nat
  preamble : Bool
  units : Option (List Chars)
  fragment : Bool
  fragment_skip_header : Bool
  replace : Bool
  no_escape : Bool
  deriving DecidableEq

/-- External filesystem: a file name resolves to its parsed rows when the file
exists, and a name may denote a directory (`os.path.isdir`). -/
structure FS where
  lookup : Chars → Option (List Row)
  isDir : Chars → Bool

/-- Observable output actions of a run: printing final content to the console,
or saving content to a path (`save_content`, append by default, overwrite when
the replace flag is set).  Diagnostic messages are out of scope. -/
inductive Effect where
  | print (content : Chars) : Effect
  | write (path : Chars) (content : Chars) (repl : Bool) : Effect
  deriving DecidableEq

/-- Models `self.tex_str`: `escape` unless escaping is disabled. -/
def texStr (c : Config) (line : List Chars) : List Chars :=
  if c.no_escape then line else escape line

/-- Four spaces, the indentation unit. -/
def indentUnit : Chars := "    ".toList

/-- Models `indent = 4*' ' if not self.no_indent else ''`. -/
def indentOf (c : Config) : Chars := if c.no_indent then [] else indentUnit

def amp : Chars := " & ".toList

/-- The row terminator, Python raw string `' \\'` (a space and two backslashes). -/
def rowEnd : Chars := " \\\\".toList

def midruleStr : Chars := "\\midrule".toList

def relaxStr : Chars := "\\relax".toList

def nl2 : Chars := "\n\n".toList

/-- The sentinel string (dash, slash, zero) that `get_units` tests membership
against. -/
def sentStr : Chars := "-/0".toList

/-- Embeds `create_row`: two indent units, the escaped cells joined by
`' & '`, and the row terminator. -/
def create_row (c : Config) (indent : Chars) (line : Row) : Chars :=
  indent ++ indent ++ joinSep amp (texStr c line) ++ rowEnd

/-- Embeds `get_units`: a unit token that is a Python substring of the
sentinel string becomes empty, any other token is wrapped in square brackets;
results joined with `' & '`. -/
def get_units (c : Config) : Chars :=
  joinSep amp ((texStr c (c.units.getD [])).map
    (fun u => if subStr u sentStr then [] else '[' :: (u ++ [']'])))

/-- The units row inserted below the header. -/
def unitsLine (c : Config) (indent : Chars) : Chars :=
  indent ++ indent ++ get_units c ++ rowEnd

/-- Embeds the header-handling block of `create_table`: when a header is
present, a midrule line is inserted at index 1; when units are also supplied,
`\relax` is appended to the first row and the units line is inserted at
index 1, in that order. -/
def assembleRows (c : Config) (indent : Chars) (rows : List Chars) : List Chars :=
  if c.no_header then rows
  else
    let rows1 := pyInsert 1 (indent ++ indent ++ midruleStr) rows
    if listTruthy c.units then
      let rows2 :=
        match rows1 with
        | [] => []
        | r0 :: rest => (r0 ++ relaxStr) :: rest
      pyInsert 1 (unitsLine c indent) rows2
    else rows1

def labelWord : Chars := "\\label".toList

def captionWord : Chars := "\\caption".toList

/-- Embeds `add_label`: empty for a falsy label, else a newline, the indent
and a label command. -/
def add_label (label : Option Chars) (indent : Chars) : Chars :=
  if strTruthy label then '\n' :: (indent ++ labelWord ++ braced (label.getD []))
  else []

/-- Embeds `add_caption`: empty for a falsy caption, else a newline, the
indent and a caption command. -/
def add_caption (caption : Option Chars) (indent : Chars) : Chars :=
  if strTruthy caption then '\n' :: (indent ++ captionWord ++ braced (caption.getD []))
  else []

def beginWord : Chars := "\\begin".toList

def endWord : Chars := "\\end".toList

def tableWord : Chars := "table".toList

def tabularWord : Chars := "tabular".toList

def htbWord : Chars := "[htb]".toList

def centeringWord : Chars := "\\centering".toList

def topruleStr : Chars := "\\toprule".toList

def bottomruleStr : Chars := "\\bottomrule".toList

/-- The rendered HEADER template up to and including the `\x7b@\x7b\x7d` that
precedes the alignment string of the tabular environment. -/
def tabularOpen (c : Config) (indent : Chars) : Chars :=
  beginWord ++ braced tableWord ++ htbWord ++
  '\n' :: (indent ++ centeringWord ++ add_caption c.caption indent ++ add_label c.label indent ++
  '\n' :: (indent ++ beginWord ++ braced tabularWord ++ [lb, '@', lb, rb]))

/-- The fully rendered HEADER template of tably.py for a table of `n` columns. -/
def headerStr (c : Config) (indent : Chars) (n : Nat) : Chars :=
  tabularOpen c indent ++ format_alignment c.align n ++ ['@', lb, rb, rb] ++
  '\n' :: (indent ++ indent ++ topruleStr)

/-- The rendered FOOTER template of tably.py. -/
def footerStr (indent : Chars) : Chars :=
  indent ++ indent ++ bottomruleStr ++
  '\n' :: (indent ++ endWord ++ braced tabularWord) ++
  '\n' :: (endWord ++ braced tableWord)

def docclassStr : Chars := "\\documentclass[11pt, a4paper]".toList

def usepkgStr : Chars := "\\usepackage".toList

def articleWord : Chars := "article".toList

def booktabsWord : Chars := "booktabs".toList

def documentWord : Chars := "document".toList

/-- The PREAMBLE constant of tably.py. -/
def PREAMBLE : Chars :=
  docclassStr ++ braced articleWord ++
  '\n' :: (usepkgStr ++ braced booktabsWord) ++
  '\n' :: (beginWord ++ braced documentWord)

/-- The document trailer appended by the composer, with its trailing newline. -/
def endDoc : Chars := endWord ++ braced documentWord ++ ['\n']

/-- The re-label warning comment line of `combine_tables`. -/
def warnLine : Chars := "% don\x27t forget to manually re-label the tables".toList

/-- Embeds the reading loop of `create_table`: rows whose 0-based index is
below the skip count are dropped, the rest are kept in order. -/
def readLoop (skip : Nat) : Nat → List Row → List Row
  | _, [] => []
  | i, r :: rs => if i < skip then readLoop skip (i + 1) rs else r :: readLoop skip (i + 1) rs

/-- The kept rows of a source, already formatted by `create_row`. -/
def formattedRows (c : Config) (all : List Row) : List Chars :=
  (readLoop c.skip 0 all).map (create_row c (indentOf c))

/-- The row lines of one table: formatted kept rows plus the header insertions. -/
def tableRows (c : Config) (all : List Row) : List Chars :=
  assembleRows c (indentOf c) (formattedRows c all)

/-- Embeds `create_table`.  `none` models a source that does not exist
(`FileNotFoundError`); the empty string is returned for a missing or empty
source.  The alignment width is the cell count of the last row read from the
file, mirroring the loop variable `columns` after the reading loop. -/
def create_table (c : Config) (src : Option (List Row)) : Chars :=
  match src with
  | none => []
  | some all =>
    if (formattedRows c all).isEmpty then []
    else
      let content := joinSep ['\n'] (tableRows c all)
      if c.fragment then content
      else
        joinSep ['\n']
          [headerStr c (indentOf c) (all.getLastD []).length, content, footerStr (indentOf c)]

/-- The tables of `combine_tables`: one per source, the empty ones dropped. -/
def tablesOf (c : Config) (fs : FS) : List Chars :=
  (c.files.map (fun f => create_table c (fs.lookup f))).filter (fun t => !t.isEmpty)

/-- Embeds `combine_tables`: optional warning comment, the non-empty tables,
then optionally the preamble inserted at index 0 and the document trailer
appended; `none` when there is nothing at all. -/
def combine_tables (c : Config) (fs : FS) : Option Chars :=
  let warn : List Chars :=
    if strTruthy c.label && decide (c.files.length > 1) then [warnLine] else []
  let all := warn ++ tablesOf c fs
  if all.isEmpty then none
  else if c.preamble then some (joinSep nl2 (PREAMBLE :: (all ++ [endDoc])))
  else some (joinSep nl2 all)

/-- Embeds `save_single_table`.  The source guards with `if table:` where
`table` is the one-element list `[self.create_table(file)]`, which is always
truthy, so a write is performed even when the table is empty. -/
def save_single_table (c : Config) (fs : FS) (file out : Chars) : Effect :=
  let table : List Chars := [create_table c (fs.lookup file)]
  let table2 := if c.preamble then PREAMBLE :: (table ++ [endDoc]) else table
  Effect.write out (joinSep nl2 table2) c.replace

/-- Models `os.path.splitext(f)[0]` (an external library call) for ordinary
names: the final extension after the last slash is removed. -/
def dropExt (f : Chars) : Chars :=
  let r := f.reverse
  let pre := r.takeWhile (fun ch => ch ≠ '.' && ch ≠ '/')
  if pre.length < r.length ∧ (r.drop pre.length).headD ' ' = '.' then
    (r.drop (pre.length + 1)).reverse
  else f

/-- Models `os.path.basename` (an external library call): the part after the
last slash. -/
def baseName (f : Chars) : Chars := (f.reverse.takeWhile (fun ch => ch ≠ '/')).reverse

def texExt : Chars := ".tex".toList

/-- Default output name derived from a source name. -/
def defaultTexName (f : Chars) : Chars := dropExt f ++ texExt

/-- Output name for a source placed inside a destination directory. -/
def dirTexName (d f : Chars) : Chars := d ++ '/' :: (dropExt (baseName f) ++ texExt)

/-- Resolution of the separate output names in `run`: derived names when the
list is empty, directory placement when the first entry is a directory,
otherwise the explicit list (a length mismatch only warns). -/
def resolveOuts (c : Config) (fs : FS) : List Chars :=
  match c.separate_outfiles with
  | none => []
  | some [] => c.files.map defaultTexName
  | some (o :: os) => if fs.isDir o then c.files.map (dirTexName o) else o :: os

/-- The per-source saving block of `run`: one `save_single_table` per
zip-paired source and output name. -/
def separateSaves (c : Config) (fs : FS) : List Effect :=
  match c.separate_outfiles with
  | none => []
  | some _ => (c.files.zip (resolveOuts c fs)).map (fun p => save_single_table c fs p.1 p.2)

/-- The configuration normalization at the start of `run`: the shortcut flag
forces skip 1, disables the header and enables fragment mode; fragment mode
then disables indentation, clears the label and disables the preamble. -/
def normalizeConfig (c : Config) : Config :=
  let c1 :=
    if c.fragment_skip_header then
      { c with skip := 1, no_header := true, fragment := true }
    else c
  if c1.fragment then { c1 with no_indent := true, label := none, preamble := false } else c1

/-- The effect sequence of `run` after normalization: the combined block runs
when an outfile is given or no separate outputs were requested, and an empty
combination returns early, skipping the separate saves as well. -/
def runEffects (c : Config) (fs : FS) : List Effect :=
  if strTruthy c.outfile || c.separate_outfiles.isNone then
    match combine_tables c fs with
    | none => []
    | some content =>
      (if strTruthy c.outfile then [Effect.write (c.outfile.getD []) content c.replace]
       else [Effect.print content]) ++ separateSaves c fs
  else separateSaves c fs

/-- Embeds `Tably.run`: normalize the configuration, then perform the effects. -/
def run (c : Config) (fs : FS) : List Effect :=
  runEffects (normalizeConfig c) fs

/-- The text of a string up to its first newline. -/
def firstLine (s : Chars) : Chars := s.takeWhile (fun ch => ch ≠ '\n')

/-- Splits a string at newline characters, Python `s.split(chr(10))`. -/
def splitNl : Chars → List Chars
  | [] => [[]]
  | ch :: t =>
    if ch = '\n' then [] :: splitNl t
    else
      match splitNl t with
      | [] => [[ch]]
      | l :: ls => (ch :: l) :: ls

/-- The seven Python substrings of the sentinel string (dash, slash, zero). -/
def sentSubs : List Chars :=
  [[], "-".toList, "/".toList, "0".toList, "-/".toList, "/0".toList, "-/0".toList]

/-- Baseline configuration: every option at its command-line default. -/
def cfg0 : Config :=
  { files := [], no_header := false, caption := none, label := none,
    align := ['c'], no_indent := false, outfile := none, separate_outfiles := none,
    skip := 0, preamble := false, units := none, fragment := false,
    fragment_skip_header := false, replace := false, no_escape := false }

/-- A filesystem with no files and no directories. -/
def fsEmpty : FS := { lookup := fun _ => none, isDir := fun _ => false }

def missingCsv : Chars := "missing.csv".toList

def outTex : Chars := "out.tex".toList

/-- Invocation with one absent source, separate output files and a preamble. -/
def cfg2 : Config :=
  { cfg0 with files := [missingCsv], separate_outfiles := some [outTex], preamble := true }

/-- The content that `run` saves for `cfg2`: preamble, empty table, trailer. -/
def c2content : Chars := joinSep nl2 [PREAMBLE, [], endDoc]

def aCsv : Chars := "a.csv".toList

def bCsv : Chars := "b.csv".toList

/-- A filesystem holding the one-row sources `a.csv` and `b.csv`. -/
def fsAB : FS :=
  { lookup := fun n =>
      if n = aCsv then some [["1".toList]]
      else if n = bCsv then some [["2".toList]]
      else none,
    isDir := fun _ => false }

/-- Two sources, a label and a requested preamble. -/
def cfg3c : Config :=
  { cfg0 with files := [aCsv, bCsv], label := some ( "tab".toList ), preamble := true }

/-- Two sources and a label, without a preamble. -/
def cfg3w : Config := { cfg3c with preamble := false }

/-- A unit list holding a single two-character token, dash then slash. -/
def cfg4 : Config := { cfg0 with units := some [ "-/".toList ] }

/-- Left alignment request over a source whose header is narrower than its body. -/
def cfg5 : Config := { cfg0 with align := ['l'] }

/-- A short header row followed by a wider body row. -/
def rows5 : List Row := [[ "h".toList ], [ "x".toList, "y".toList, "z".toList ]]

/-- The combined shortcut flag together with requests it must override. -/
def cfg6 : Config :=
  { cfg0 with fragment_skip_header := true, label := some ( "lbl".toList ), preamble := true }

/-- A header plus a supplied unit list. -/
def cfg7 : Config := { cfg0 with units := some [ "m".toList ] }

/-- A concrete header row line for the insertion example. -/
def hRow : Chars := "Speed".toList

/-- Skip one row with the header flag off. -/
def cfg9 : Config := { cfg0 with skip := 1, no_header := true }

/-- Three parsed data rows. -/
def rows9 : List Row := [[ "a".toList ], [ "b".toList ], [ "c".toList ]]

def allTex : Chars := "all.tex".toList

def t1Tex : Chars := "t1.tex".toList

/-- One existing source, a single output path and a separate output file. -/
def cfg10 : Config :=
  { cfg0 with files := [aCsv], outfile := some allTex, separate_outfiles := some [t1Tex] }

/-- The combined content produced for `cfg10` over `fsAB`. -/
def c10content : Chars := (combine_tables (normalizeConfig cfg10) fsAB).getD []

theorem pyInsert_zero (x : α) (l : List α) : pyInsert 0 x l = x :: l := by
  cases l <;> rfl

theorem pyInsert_one (x a : α) (l : List α) : pyInsert 1 x (a :: l) = a :: x :: l := by
  cases l <;> rfl

theorem pyRepeat_singleton (n : Nat) (ch : Char) :
    pyRepeat n [ch] = List.replicate n ch := by
  induction n with
  | zero => rfl
  | succ m ih => simp [pyRepeat, List.replicate_succ, ih]

theorem fa_core_length (a : Chars) (n : Nat) :
    (if a.length = 1 then pyRepeat n a
     else if a.length = n then a
     else a.take n ++ List.replicate (n - (a.take n).length) 'c').length = n := by
  split_ifs with h1 h2
  · obtain ⟨ch, rfl⟩ := List.length_eq_one.mp h1
    simp [pyRepeat_singleton]
  · exact h2
  · simp only [List.length_append, List.length_replicate, List.length_take]
    omega

theorem format_alignment_length (a : Chars) (n : Nat) :
    (format_alignment a n).length = n :=
  fa_core_length (if a.any (fun ch => !(decide (ch ∈ lcr))) then ['c'] else a) n

theorem listPref_self_append (x r : Chars) : listPref x (x ++ r) = true := by
  induction x with
  | nil => rfl
  | cons a as ih => simpa [listPref] using ih

theorem firstLine_append (w r : Chars) (hw : ∀ ch ∈ w, ch ≠ '\n')
    (hr : r = [] ∨ ∃ t, r = '\n' :: t) : firstLine (w ++ r) = w := by
  induction w with
  | nil =>
    rcases hr with rfl | ⟨t, rfl⟩
    · rfl
    · simp [firstLine]
  | cons a w ih =>
    have ha : a ≠ '\n' := hw a (by simp)
    have := ih (fun ch hch => hw ch (by simp [hch]))
    simpa [firstLine, List.takeWhile_cons, ha] using this

theorem joinSep_nl2_shape (x : Chars) (xs : List Chars) :
    ∃ r, joinSep nl2 (x :: xs) = x ++ r ∧ (r = [] ∨ ∃ t, r = '\n' :: t) := by
  cases xs with
  | nil => exact ⟨[], by simp [joinSep], Or.inl rfl⟩
  | cons y ys =>
    refine ⟨nl2 ++ joinSep nl2 (y :: ys), ?_, Or.inr ⟨'\n' :: joinSep nl2 (y :: ys), rfl⟩⟩
    simp [joinSep, nl2]

theorem foldl_map_comm (cs : Chars) (line : List Chars) :
    List.foldl (fun l ch => l.map (replChar ch)) line cs =
      line.map (fun s => List.foldl (fun s ch => replChar ch s) s cs) := by
  induction cs generalizing line with
  | nil => simp
  | cons c cs ih =>
    simp only [List.foldl_cons]
    rw [ih]
    simp [List.map_map, Function.comp]

theorem escAll_nil (s : Chars) : escAll [] s = s := by
  induction s with
  | nil => rfl
  | cons x xs ih => simp [escAll, ih]

theorem escAll_replChar (c : Char) (cs : Chars) (hc : c ∉ cs) (hb : '\\' ∉ cs)
    (s : Chars) : escAll cs (replChar c s) = escAll (c :: cs) s := by
  induction s with
  | nil => rfl
  | cons x xs ih =>
    by_cases hx : x = c
    · subst hx
      simp [replChar, escAll, ih, hb, hc]
    · simp only [replChar, if_neg hx, escAll, ih]
      congr 1
      simp [List.mem_cons, hx]

theorem foldl_escAll (cs : Chars) (hnd : cs.Nodup) (hb : '\\' ∉ cs) (s : Chars) :
    List.foldl (fun s ch => replChar ch s) s cs = escAll cs s := by
  induction cs generalizing s with
  | nil => exact (escAll_nil s).symm
  | cons c cs ih =>
    have hc : c ∉ cs := (List.nodup_cons.mp hnd).1
    have hnd' : cs.Nodup := (List.nodup_cons.mp hnd).2
    have hb' : '\\' ∉ cs := fun h => hb (List.mem_cons_of_mem _ h)
    simp only [List.foldl_cons]
    rw [ih hnd' hb', escAll_replChar c cs hc hb']

theorem readLoop_drop (k : Nat) (all : List Row) :
    ∀ i, readLoop k i all = all.drop (k - i) := by
  induction all with
  | nil => intro i; simp [readLoop]
  | cons r rs ih =>
    intro i
    by_cases h : i < k
    · have hki : k - i = (k - (i + 1)) + 1 := by omega
      simp [readLoop, h, ih (i + 1), hki]
    · have h0 : k - i = 0 := by omega
      have h1 : k - (i + 1) = 0 := by omega
      simp [readLoop, h, ih (i + 1), h0, h1]

theorem normalizeConfig_io_fields (c : Config) :
    (normalizeConfig c).outfile = c.outfile ∧
    (normalizeConfig c).separate_outfiles = c.separate_outfiles ∧
    (normalizeConfig c).replace = c.replace ∧
    (normalizeConfig c).files = c.files := by
  cases hA : c.fragment_skip_header <;> cases hB : c.fragment <;>
    simp [normalizeConfig, hA, hB]

/-- C1: for a positive column count `n`, `format_alignment` returns a string
of length `n` over the alignment alphabet; an invalid character anywhere
yields `n` copies of `c`; a valid single character is repeated `n` times; a
valid string of length `n` is returned unchanged; any other valid length is
right-padded with `c` or truncated to the first `n` characters. -/
theorem c1_format_alignment (a : Chars) (n : Nat) (_hn : 0 < n) :
    (format_alignment a n).length = n
    ∧ (∀ ch ∈ format_alignment a n, ch ∈ lcr)
    ∧ (a.any (fun ch => !(decide (ch ∈ lcr))) = true →
        format_alignment a n = List.replicate n 'c')
    ∧ (∀ ch, a = [ch] → ch ∈ lcr → format_alignment a n = List.replicate n ch)
    ∧ (a.any (fun ch => !(decide (ch ∈ lcr))) = false → a.length = n →
        format_alignment a n = a)
    ∧ (a.any (fun ch => !(decide (ch ∈ lcr))) = false → a.length ≠ 1 → a.length ≠ n →
        format_alignment a n = a.take n ++ List.replicate (n - a.length) 'c') := by
  by_cases hv : a.any (fun ch => !(decide (ch ∈ lcr))) = true
  · have hfa : format_alignment a n = List.replicate n 'c' := by
      simp only [format_alignment, hv, if_true, List.length_singleton, if_pos rfl]
      exact pyRepeat_singleton n 'c'
    refine ⟨by rw [hfa]; simp, ?_, fun _ => hfa, ?_, ?_, ?_⟩
    · intro ch hch
      rw [hfa] at hch
      simp [List.eq_of_mem_replicate hch, lcr]
    · rintro ch rfl hch
      simp [lcr] at hch
      rcases hch with rfl | rfl | rfl <;> simp_all [lcr]
    · intro h; exact absurd hv (by simp [h])
    · intro h; exact absurd hv (by simp [h])
  · have hv' : a.any (fun ch => !(decide (ch ∈ lcr))) = false := by
      simpa using hv
    have hall : ∀ ch ∈ a, ch ∈ lcr := by
      intro ch hch
      by_contra hco
      exact hv (List.any_eq_true.mpr ⟨ch, hch, by simp [hco]⟩)
    have hunf : format_alignment a n =
        (if a.length = 1 then pyRepeat n a
         else if a.length = n then a
         else a.take n ++ List.replicate (n - (a.take n).length) 'c') := by
      simp only [format_alignment, hv', Bool.false_eq_true, if_false]
    refine ⟨format_alignment_length a n, ?_, fun h => absurd h hv, ?_, ?_, ?_⟩
    · intro ch hch
      rw [hunf] at hch
      split_ifs at hch with h1 h2
      · obtain ⟨x, rfl⟩ := List.length_eq_one.mp h1
        rw [pyRepeat_singleton] at hch
        have hxy := List.eq_of_mem_replicate hch
        subst hxy
        exact hall ch (by simp)
      · exact hall ch hch
      · rcases List.mem_append.mp hch with h | h
        · exact hall ch (List.mem_of_mem_take h)
        · simp [List.eq_of_mem_replicate h, lcr]
    · rintro ch rfl hch
      rw [hunf]
      simp [pyRepeat_singleton]
    · intro _ hlen
      rw [hunf]
      by_cases h1 : a.length = 1
      · obtain ⟨x, rfl⟩ := List.length_eq_one.mp h1
        simp at hlen
        simp [← hlen, pyRepeat_singleton]
      · have hn1 : ¬ n = 1 := fun h => h1 (by omega)
        simp [h1, hlen, hn1]
    · intro _ h1 h2
      rw [hunf, if_neg h1, if_neg h2]
      have heq : n - (a.take n).length = n - a.length := by
        simp only [List.length_take]
        omega
      rw [heq]

/-- C1 witness: a valid single-character alignment over three columns. -/
theorem c1_format_alignment_witness :
    format_alignment ( "l".toList ) 3 = ['l', 'l', 'l'] := by
  have h := (c1_format_alignment ( "l".toList ) 3 (by decide)).2.2.2.1 'l' rfl (by decide)
  simpa using h

/-- C2: with a single absent source and separate output files requested, the
run is not a silent no-op: `save_single_table` guards with `if table:` on a
one-element list, which is always truthy, so a write of the degenerate
document (preamble, empty table, trailer) is still performed. -/
theorem c2_separate_mode_still_writes :
    run cfg2 fsEmpty = [Effect.write outTex c2content false] ∧ c2content ≠ [] := by
  constructor <;> decide

/-- C6: the combined shortcut flag forces skip 1, no header and fragment
mode; fragment mode, however requested, forces indentation off, the label
cleared and the preamble disabled. -/
theorem c6_normalize_config (c : Config) :
    (c.fragment_skip_header = true →
      (normalizeConfig c).skip = 1 ∧ (normalizeConfig c).no_header = true ∧
        (normalizeConfig c).fragment = true)
    ∧ ((c.fragment = true ∨ c.fragment_skip_header = true) →
      (normalizeConfig c).no_indent = true ∧ (normalizeConfig c).label = none ∧
        (normalizeConfig c).preamble = false) := by
  cases hA : c.fragment_skip_header <;> cases hB : c.fragment <;>
    simp [normalizeConfig, hA, hB]

/-- C6 witness: the shortcut flag set together with a label, a preamble
request and indentation on. -/
theorem c6_normalize_config_witness :
    (normalizeConfig cfg6).skip = 1 ∧ (normalizeConfig cfg6).no_header = true ∧
    (normalizeConfig cfg6).fragment = true ∧ (normalizeConfig cfg6).no_indent = true ∧
    (normalizeConfig cfg6).label = none ∧ (normalizeConfig cfg6).preamble = false := by
  have h := c6_normalize_config cfg6
  obtain ⟨h1, h2, h3⟩ := h.1 rfl
  obtain ⟨h4, h5, h6⟩ := h.2 (Or.inr rfl)
  exact ⟨h1, h2, h3, h4, h5, h6⟩

/-- C7: with the header flag on, the midrule separator lands immediately
after the first row; when units are supplied, the first row gains a trailing
relax command and the units row sits between the header row and the
separator; with the header flag off nothing is inserted. -/
theorem c7_header_units (c : Config) (indent r0 : Chars) (rest : List Chars) :
    (c.no_header = true → assembleRows c indent (r0 :: rest) = r0 :: rest)
    ∧ (c.no_header = false → listTruthy c.units = false →
        assembleRows c indent (r0 :: rest) =
          r0 :: (indent ++ indent ++ midruleStr) :: rest)
    ∧ (c.no_header = false → listTruthy c.units = true →
        assembleRows c indent (r0 :: rest) =
          (r0 ++ relaxStr) :: unitsLine c indent ::
            (indent ++ indent ++ midruleStr) :: rest) := by
  refine ⟨fun h => by simp [assembleRows, h], fun h hu => ?_, fun h hu => ?_⟩
  · simp [assembleRows, h, hu, pyInsert_one]
  · simp [assembleRows, h, hu, pyInsert_one]

/-- C7 witness: a one-row header with a unit list. -/
theorem c7_header_units_witness :
    assembleRows cfg7 [] [hRow] =
      [hRow ++ relaxStr, unitsLine cfg7 [], [] ++ [] ++ midruleStr] :=
  (c7_header_units cfg7 [] hRow []).2.2 rfl rfl

/-- C9: the reading loop drops exactly the first `skip` rows, independently of
the header flag; concretely, three rows with skip 1 and no header yield two
row lines and no midrule line. -/
theorem c9_skip_unconditional :
    (∀ (k : Nat) (all : List Row), readLoop k 0 all = all.drop k)
    ∧ (∀ (c : Config) (b : Bool) (all : List Row),
        formattedRows { c with no_header := b } all = formattedRows c all)
    ∧ (tableRows cfg9 rows9).length = 2
    ∧ (tableRows cfg9 rows9).all (fun l => !(subStr midruleStr l)) = true := by
  refine ⟨fun k all => by simpa using readLoop_drop k all 0,
    fun c b all => rfl, by decide, by decide⟩

/-- C8: a single application of `escape` is exactly per-character
backslash-prefixing of the seven special characters, with no re-escaping of
the backslashes inserted by earlier passes; on the cell `a_b` it yields the
cell `a` backslash underscore `b`. -/
theorem c8_escape_characterization :
    (∀ line : List Chars, escape line = line.map (escAll specials))
    ∧ escape [ "a_b".toList ] = [ "a\\_b".toList ] := by
  constructor
  · intro line
    rw [escape, foldl_map_comm]
    have h : (fun s : Chars => List.foldl (fun s ch => replChar ch s) s specials) =
        escAll specials :=
      funext fun s => foldl_escAll specials (by decide) (by decide) s
    rw [h]
  · decide

theorem sentStr_eq : sentStr = ['-', '/', '0'] := rfl

theorem sentSubs_eq :
    sentSubs = [[], ['-'], ['/'], ['0'], ['-', '/'], ['/', '0'], ['-', '/', '0']] := rfl

theorem subStr_sent (u : Chars) : subStr u sentStr = true ↔ u ∈ sentSubs := by
  rw [sentStr_eq, sentSubs_eq]
  rcases u with _ | ⟨a, _ | ⟨b, _ | ⟨c, _ | ⟨d, t⟩⟩⟩⟩
  · simp [subStr, listPref]
  · simp only [subStr, listPref]
    split_ifs <;> simp_all
  · simp only [subStr, listPref]
    split_ifs <;> simp_all
  · simp only [subStr, listPref]
    split_ifs <;> simp_all
  · simp only [subStr, listPref]
    split_ifs <;> simp_all

/-- C4 counterexample: the two-character unit token dash-slash is not one of
the three sentinel markers, yet the formatter emits the empty string for it
instead of the bracket-wrapped token, because the source tests Python
substring containment. -/
theorem c4_units_counterexample :
    get_units cfg4 = [] ∧ get_units cfg4 ≠ "[-/]".toList := by
  constructor <;> decide

/-- C4 amended: the units formatter emits the empty string for a column
exactly when the escaped token is a Python substring of the sentinel string,
that is, one of the seven strings of `sentSubs`; otherwise the token is
wrapped in square brackets, and the columns are joined with ampersands. -/
theorem c4_units_amended (c : Config) :
    get_units c =
      joinSep amp ((texStr c (c.units.getD [])).map
        (fun u => if u ∈ sentSubs then [] else '[' :: (u ++ [']']))) := by
  have hpt : ∀ u : Chars,
      (if subStr u sentStr then ([] : Chars) else '[' :: (u ++ [']'])) =
        (if u ∈ sentSubs then ([] : Chars) else '[' :: (u ++ [']'])) := by
    intro u
    by_cases h : u ∈ sentSubs
    · rw [if_pos ((subStr_sent u).mpr h), if_pos h]
    · rw [if_neg (fun hh => h ((subStr_sent u).mp hh)), if_neg h]
  rw [get_units]
  simp only [hpt]

theorem warnLine_no_newline : ∀ ch ∈ warnLine, ch ≠ '\n' := by decide

/-- C3 counterexample: two labelled sources with a requested preamble; the
composed output exists but its first line is the preamble's document class
line, not the re-label warning comment, because `combine_tables` inserts the
preamble at index 0 after the warning was added. -/
theorem c3_preamble_counterexample :
    combine_tables cfg3c fsAB ≠ none ∧
      firstLine ((combine_tables cfg3c fsAB).getD []) ≠ warnLine := by
  constructor <;> decide

/-- C3 amended: with a truthy label and more than one source, the composed
output starts with the warning comment as its first line whenever no preamble
was requested; when a preamble is requested, the preamble block comes first
and the warning comment follows it. -/
theorem c3_warning_first_line (c : Config) (fs : FS)
    (hl : strTruthy c.label = true) (hn : 1 < c.files.length) :
    (c.preamble = false →
      ∃ rest, combine_tables c fs = some (warnLine ++ rest) ∧
        firstLine (warnLine ++ rest) = warnLine)
    ∧ (c.preamble = true →
      ∃ rest, combine_tables c fs = some (PREAMBLE ++ nl2 ++ (warnLine ++ rest))) := by
  have hcond : (strTruthy c.label && decide (c.files.length > 1)) = true := by
    rw [hl, Bool.true_and, decide_eq_true_eq]
    exact hn
  have hunf : combine_tables c fs =
      (if c.preamble then
        some (joinSep nl2 (PREAMBLE :: ((warnLine :: tablesOf c fs) ++ [endDoc])))
      else some (joinSep nl2 (warnLine :: tablesOf c fs))) := by
    simp [combine_tables, hcond]
  constructor
  · intro hp
    rw [hunf, hp]
    simp only [Bool.false_eq_true, if_false]
    obtain ⟨r, hr, hshape⟩ := joinSep_nl2_shape warnLine (tablesOf c fs)
    exact ⟨r, by rw [hr], firstLine_append _ _ warnLine_no_newline hshape⟩
  · intro hp
    rw [hunf, hp]
    simp only [if_true]
    obtain ⟨r, hr, _⟩ := joinSep_nl2_shape warnLine (tablesOf c fs ++ [endDoc])
    refine ⟨r, ?_⟩
    have hj : joinSep nl2 (PREAMBLE :: ((warnLine :: tablesOf c fs) ++ [endDoc])) =
        PREAMBLE ++ nl2 ++ joinSep nl2 (warnLine :: (tablesOf c fs ++ [endDoc])) := by
      simp [joinSep]
    rw [hj, hr]

/-- C3 witness: two labelled sources without a preamble; the warning is the
first line of the composed output. -/
theorem c3_warning_first_line_witness :
    combine_tables cfg3w fsAB ≠ none ∧
      firstLine ((combine_tables cfg3w fsAB).getD []) = warnLine := by
  obtain ⟨r, h1, h2⟩ := (c3_warning_first_line cfg3w fsAB (by decide) (by decide)).1 rfl
  rw [h1]
  exact ⟨by simp, h2⟩

/-- C5: for a produced non-fragment table, the alignment string placed after
the tabular opening is computed from the cell count of the last row read from
the source, and its length equals that cell count. -/
theorem c5_alignment_last_row (c : Config) (all : List Row)
    (hf : c.fragment = false) (hne : readLoop c.skip 0 all ≠ []) :
    ∃ rest, create_table c (some all) =
        tabularOpen c (indentOf c) ++
          (format_alignment c.align ((all.getLastD []).length) ++ rest) ∧
      (format_alignment c.align ((all.getLastD []).length)).length =
        (all.getLastD []).length := by
  have hrows : (formattedRows c all).isEmpty = false := by
    rw [formattedRows]
    cases h : readLoop c.skip 0 all with
    | nil => exact absurd h hne
    | cons r rs => simp
  have hmain : create_table c (some all) =
      tabularOpen c (indentOf c) ++
        (format_alignment c.align ((all.getLastD []).length) ++
          (['@', lb, rb, rb] ++ '\n' :: (indentOf c ++ indentOf c ++ topruleStr) ++
            '\n' :: (joinSep ['\n'] (tableRows c all) ++ '\n' :: footerStr (indentOf c)))) := by
    simp [create_table, hrows, hf, headerStr, joinSep, List.append_assoc]
  exact ⟨_, hmain, format_alignment_length _ _⟩

/-- C5 witness: a one-cell header over a three-cell body row yields an
alignment string of width three at the head of the produced table. -/
theorem c5_alignment_last_row_witness :
    listPref (tabularOpen cfg5 (indentOf cfg5) ++
        format_alignment cfg5.align ((rows5.getLastD []).length))
      (create_table cfg5 (some rows5)) = true ∧
    (format_alignment cfg5.align ((rows5.getLastD []).length)).length =
      (rows5.getLastD []).length := by
  obtain ⟨rest, h1, h2⟩ := c5_alignment_last_row cfg5 rows5 rfl (by decide)
  refine ⟨?_, h2⟩
  rw [h1, ← List.append_assoc]
  exact listPref_self_append _ _

/-- C10: with a truthy single output path and an explicit separate output
list whose first entry is not a directory, a successful combination makes the
run perform the combined write and, in addition, one separate save per
zip-paired source and output name. -/
theorem c10_both_output_modes (c : Config) (fs : FS) (p o : Chars) (os : List Chars)
    (content : Chars)
    (hp : c.outfile = some p) (hpne : p ≠ [])
    (ho : c.separate_outfiles = some (o :: os))
    (hdir : fs.isDir o = false)
    (hc : combine_tables (normalizeConfig c) fs = some content) :
    run c fs =
      Effect.write p content c.replace ::
        (c.files.zip (o :: os)).map
          (fun q => save_single_table (normalizeConfig c) fs q.1 q.2) := by
  obtain ⟨h1, h2, h3, h4⟩ := normalizeConfig_io_fields c
  have hstp : strTruthy (some p) = true := by
    cases p with
    | nil => exact absurd rfl hpne
    | cons a t => rfl
  have hst : strTruthy (normalizeConfig c).outfile = true := by rw [h1, hp]; exact hstp
  have ho' : (normalizeConfig c).separate_outfiles = some (o :: os) := by rw [h2, ho]
  have hres : resolveOuts (normalizeConfig c) fs = o :: os := by
    simp [resolveOuts, ho', hdir]
  have hsep : separateSaves (normalizeConfig c) fs =
      (c.files.zip (o :: os)).map
        (fun q => save_single_table (normalizeConfig c) fs q.1 q.2) := by
    simp [separateSaves, ho', hres, h4]
  rw [run]
  simp [runEffects, hst, hstp, hc, h1, hp, h3, hsep]

/-- C10 witness: one existing source with both a single output path and one
separate output file; both writes are performed. -/
theorem c10_both_output_modes_witness :
    run cfg10 fsAB =
      Effect.write allTex c10content cfg10.replace ::
        (cfg10.files.zip [t1Tex]).map
          (fun q => save_single_table (normalizeConfig cfg10) fsAB q.1 q.2) :=
  c10_both_output_modes cfg10 fsAB allTex t1Tex [] c10content rfl (by decide) rfl rfl
    (by decide)

end Tably
